import Mathlib

/-!
Formal model of the per-connection orchestration logic of a real-time
voice-conversation gateway.  The JavaScript sources modelled here are
`services/wsHandler.js`, `services/llmService.js` and
`services/speechService.js`: per-connection mutable state attached to the
WebSocket object is made explicit as a `Conn` record, client-visible writes
are collected in `Conn.sent`, frames written to the recognition push stream
are collected in `Conn.forwarded`, and fallible byte reads (which throw a
`RangeError` in Node) return `Option`.
-/

/-- One conversation turn, as stored in `ws.conversationHistory`
(`llmService.js`). -/
structure Turn where
  role : String
  content : String
deriving DecidableEq, Repr

/-- Client-visible messages, the payloads relevant to the modelled code
paths.  `error` is the typed envelope built by `createMessage('error', …)`
(`wsHandler.js`), while `rawError` is the legacy untyped
`{ error, details }` object sent by `sendErrorToClient`
(`speechService.js`) — it carries no `type` field.  Binary audio frames
are represented by their byte size. -/
inductive Msg where
  | interrupt
  | error (message details : String)
  | rawError (message details : String)
  | conversationCleared
  | audioData (size : Nat)
deriving DecidableEq, Repr

/-- Per-connection state.  Fields up to `pushStream` are the mutable fields
the JavaScript code attaches to the WebSocket object (plus the `pushStream`
closure variable of `handleConnection`); the remaining fields record the
externally observable actions: messages sent to the client, frames
forwarded to the recognition push stream, format warnings logged,
invocations of `cancelOngoingActivities`, and synthesis (TTS provider)
calls made. -/
structure Conn where
  connectionActive : Bool
  isUserSpeaking : Bool
  ttsPendingSentences : List String
  processingTTS : Bool
  llmStream : Option Nat
  currentSynthesizer : Option Nat
  conversationHistory : Option (List Turn)
  pushStream : Bool
  sent : List Msg
  forwarded : List (List Nat)
  formatWarnings : Nat
  cancelCalls : Nat
  synthCalls : List String
deriving DecidableEq, Repr

/-- The state set up by `initializeClientState` in `wsHandler.js` (the push
stream is created later by `setupRecognizer`, so it starts out absent, and
no observable action has happened yet). -/
def initConn : Conn :=
  { connectionActive := true
    isUserSpeaking := false
    ttsPendingSentences := []
    processingTTS := false
    llmStream := none
    currentSynthesizer := none
    conversationHistory := none
    pushStream := false
    sent := []
    forwarded := []
    formatWarnings := 0
    cancelCalls := 0
    synthCalls := [] }

/-- Safely send data to the client (`sendToClient` in `wsHandler.js` and
`llmService.js`): the write happens only while the connection is marked
active. -/
def sendToClient (c : Conn) (m : Msg) : Conn :=
  if c.connectionActive then { c with sent := c.sent ++ [m] } else c

/-! ### Voice activity detection (`services/speechService.js`) -/

/-- The configured `config.speech.voiceDetectionThreshold` (`config.js`). -/
def voiceDetectionThreshold : Nat := 300

/-- Signed 16-bit little-endian decoding of two bytes. -/
def int16OfBytes (lo hi : Nat) : Int :=
  if lo + 256 * hi < 32768 then (lo + 256 * hi : Int)
  else (lo + 256 * hi : Int) - 65536

/-- Model of `Buffer.readInt16LE`: reading at an offset whose second byte
is out of bounds throws a `RangeError` in Node, modelled as `none`. -/
def readInt16LE (buf : List Nat) (i : Nat) : Option Int :=
  match buf.get? i, buf.get? (i + 1) with
  | some lo, some hi => some (int16OfBytes lo hi)
  | _, _ => none

/-- Byte offsets visited by the sampling loop
`for (let i = 0; i < sampleSize; i += 2)`. -/
def vadIndices (sampleSize : Nat) : List Nat :=
  (List.range ((sampleSize + 1) / 2)).map (fun j => 2 * j)

/-- Accumulation of `sum += Math.abs(sample)` over the given byte offsets;
fails (`none`) as soon as a read is out of bounds, modelling the thrown
`RangeError` aborting the loop. -/
def sumAbsSamples (buf : List Nat) : List Nat → Option Nat
  | [] => some 0
  | i :: is =>
    match readInt16LE buf i with
    | none => none
    | some s => (sumAbsSamples buf is).map (fun t => s.natAbs + t)

/-- `detectVoiceActivity` (`speechService.js`).  A null buffer or one
shorter than 2 bytes yields `false`; a read error is caught and yields
`false`.  The JavaScript comparison `sum / (sampleSize / 2) > threshold`
is expressed multiplicatively as `threshold * (sampleSize / 2) < sum`,
which is equivalent whenever `sampleSize` is even — and the sum is only
available (`some`) when `sampleSize` is even, since an odd `sampleSize`
makes the final read go out of bounds. -/
def detectVoiceActivity (buffer : Option (List Nat)) : Bool :=
  match buffer with
  | none => false
  | some buf =>
    if buf.length < 2 then false
    else
      let sampleSize := min buf.length 200
      match sumAbsSamples buf (vadIndices sampleSize) with
      | none => false
      | some s => decide (voiceDetectionThreshold * (sampleSize / 2) < s)

/-! ### Interruption controller (`cancelOngoingActivities`, `llmService.js`) -/

/-- `cancelOngoingActivities(ws, sendInterrupt)`: abort the LLM stream if
present, close the current synthesizer if present, clear the TTS queue,
clear the processing flag, and (only when `sendInterrupt` and the
connection is active) notify the client with an `interrupt` message.
`cancelCalls` counts the invocations. -/
def cancelOngoingActivities (c : Conn) (sendInterrupt : Bool) : Conn :=
  let c1 : Conn :=
    { c with
      cancelCalls := c.cancelCalls + 1
      llmStream := none
      currentSynthesizer := none
      ttsPendingSentences := []
      processingTTS := false }
  if sendInterrupt && c1.connectionActive then sendToClient c1 .interrupt else c1

/-! ### Audio ingestion (`processAudioData`, `services/wsHandler.js`) -/

/-- The voice-activity block of `processAudioData`: when activity is
detected while the user was not already speaking, mark the user speaking
and cancel ongoing activities with client notification. -/
def bargeIn (c : Conn) (data : List Nat) : Conn :=
  if detectVoiceActivity (some data) && !c.isUserSpeaking then
    cancelOngoingActivities { c with isUserSpeaking := true } true
  else c

/-- `processAudioData(data)`: drop empty frames and frames arriving on an
inactive connection; validate even positive length (logging a format
warning otherwise); run the voice-activity `bargeIn` block; forward valid
frames to the recognition push stream when one exists.  Returns the
updated state and the JavaScript return value. -/
def processAudioData (c : Conn) (data : List Nat) : Conn × Bool :=
  if data.length = 0 || !c.connectionActive then (c, false)
  else if 2 ≤ data.length && data.length % 2 = 0 then
    let c1 := bargeIn c data
    if c1.pushStream then ({ c1 with forwarded := c1.forwarded ++ [data] }, true)
    else (c1, false)
  else ({ c with formatWarnings := c.formatWarnings + 1 }, false)

/-- Sequential processing of a list of inbound audio frames. -/
def runAudio (c : Conn) (frames : List (List Nat)) : Conn :=
  frames.foldl (fun s f => (processAudioData s f).1) c

/-- Fields `cancelOngoingActivities` never touches. -/
theorem cancelOngoingActivities_stable (c : Conn) (b : Bool) :
    (cancelOngoingActivities c b).pushStream = c.pushStream
    ∧ (cancelOngoingActivities c b).forwarded = c.forwarded
    ∧ (cancelOngoingActivities c b).formatWarnings = c.formatWarnings
    ∧ (cancelOngoingActivities c b).connectionActive = c.connectionActive
    ∧ (cancelOngoingActivities c b).synthCalls = c.synthCalls
    ∧ (cancelOngoingActivities c b).conversationHistory = c.conversationHistory := by
  unfold cancelOngoingActivities sendToClient
  dsimp only
  split <;> (try split) <;> simp_all

/-- Fields the voice-activity block never touches. -/
theorem bargeIn_stable (c : Conn) (d : List Nat) :
    (bargeIn c d).pushStream = c.pushStream
    ∧ (bargeIn c d).forwarded = c.forwarded
    ∧ (bargeIn c d).formatWarnings = c.formatWarnings
    ∧ (bargeIn c d).connectionActive = c.connectionActive := by
  unfold bargeIn
  split
  · obtain ⟨h1, h2, h3, h4, -⟩ := cancelOngoingActivities_stable
      { c with isUserSpeaking := true } true
    simp_all
  · simp

example : detectVoiceActivity (some [0, 16, 0, 16]) = true := by decide
example : detectVoiceActivity (some [1, 0, 1, 0]) = false := by decide
example : detectVoiceActivity (some [1, 2, 3]) = false := by decide

/-! ### Synthesis queue (`processNextTTS`, `llmService.js`) -/

/-- Outcome of the synthesis HTTP interaction inside one call to
`textToSpeech(text, ws)` (`speechService.js`): the fetch returns non-empty
audio, or a non-ok status, or an ok response with an empty body, or the
awaited fetch throws (e.g. the 10s timeout).  Every one of these outcomes
is handled inside `textToSpeech` itself. -/
inductive SynthRes where
  | ok (audioSize : Nat)
  | httpFail (status : Nat) (errText : String)
  | emptyBody
  | netThrow (err : String)
deriving DecidableEq, Repr

/-- `sendErrorToClient(ws, message, details)` (`speechService.js`): sends
the legacy untyped `{ error, details }` object, only while the connection
is active. -/
def sendErrorToClient (c : Conn) (message details : String) : Conn :=
  if c.connectionActive then
    { c with sent := c.sent ++ [Msg.rawError message details] }
  else c

/-- One awaited call to `textToSpeech(text, ws)` (`speechService.js`).
The invocation is recorded in `synthCalls`; an empty text or inactive
connection returns early; otherwise any leftover synthesizer is closed
first, then: on success the audio is sent to the client; a non-ok HTTP
status, an empty audio body, or a thrown fetch error each send the client
an untyped `rawError` with a details field.  The whole body is wrapped in
the source's own try/catch, so the returned promise always resolves — the
function never rejects, whatever the outcome. -/
def textToSpeech (c0 : Conn) (text : String) (r : SynthRes) : Conn :=
  let c := { c0 with synthCalls := c0.synthCalls ++ [text] }
  if text.isEmpty || !c.connectionActive then c
  else
    let c1 := { c with currentSynthesizer := none }
    match r with
    | .ok n => sendToClient c1 (Msg.audioData n)
    | .httpFail s e =>
      sendErrorToClient c1 "Speech synthesis failed"
        ("Status " ++ toString s ++ ": " ++ e)
    | .emptyBody =>
      sendErrorToClient c1 "Speech synthesis returned empty response"
        "No audio data received"
    | .netThrow e => sendErrorToClient c1 "Speech synthesis error" e

/-- The exit condition at the top of `processNextTTS`: queue empty, no
current LLM stream, or connection inactive. -/
def ttsExit (c : Conn) : Bool :=
  c.ttsPendingSentences.isEmpty || c.llmStream.isNone || !c.connectionActive

/-- `processNextTTS(ws)` (`llmService.js`).  Each list element supplies the
outcome of one awaited `textToSpeech` call together with a flag telling
whether the LLM stream completed during that await (the `finally` block of
`processLLMStream` sets `ws.llmStream = null` when the stream ends, which
can interleave with the awaited synthesis).  Because `textToSpeech`
resolves on every outcome (it handles its failures internally), the await
always continues into the success path: the head sentence is removed —
whether or not its synthesis succeeded — and the next one is processed.
The catch block of the source (clear queue, reset flag, typed error) is
unreachable from a synthesis failure and so has no transition here.  An
empty outcome list with a non-empty queue models a synthesis call still in
flight. -/
def processNextTTS (c : Conn) : List (SynthRes × Bool) → Conn
  | [] =>
    if ttsExit c then { c with processingTTS := false }
    else { c with processingTTS := true }
  | (r, streamEnded) :: rest =>
    if ttsExit c then { c with processingTTS := false }
    else
      let c1 := { c with processingTTS := true }
      let c2 := textToSpeech c1 c1.ttsPendingSentences.headI r
      let c3 := if streamEnded then { c2 with llmStream := none } else c2
      let c4 := { c3 with ttsPendingSentences := c3.ttsPendingSentences.tail }
      if !c4.ttsPendingSentences.isEmpty && c4.connectionActive then
        processNextTTS c4 rest
      else { c4 with processingTTS := false }

/-- The client-visible messages one `textToSpeech` call produces for a
non-empty sentence on an active connection, by outcome. -/
def synthMsgs : SynthRes → List Msg
  | .ok n => [Msg.audioData n]
  | .httpFail s e =>
    [Msg.rawError "Speech synthesis failed" ("Status " ++ toString s ++ ": " ++ e)]
  | .emptyBody =>
    [Msg.rawError "Speech synthesis returned empty response" "No audio data received"]
  | .netThrow e => [Msg.rawError "Speech synthesis error" e]

/-! ### Conversation history (`llmService.js`) -/

/-- `MAX_CONVERSATION_HISTORY` (`llmService.js`). -/
def maxConversationHistory : Nat := 10

/-- The fixed system turn installed by `initConversationHistory`. -/
def systemPromptTurn : Turn :=
  ⟨"system",
   "You are an intelligent voice assistant named Xiao Rui. Please respond in a conversational, concise way. Avoid using emoji or special characters."⟩

/-- `initConversationHistory`: create the history with the system turn if
it does not exist yet. -/
def initHistory (h : Option (List Turn)) : List Turn :=
  h.getD [systemPromptTurn]

/-- The push/evict step of `addToConversationHistory`: append the turn,
then if the length exceeds `MAX_CONVERSATION_HISTORY + 1` remove the entry
at index 1 (`splice(1, 1)`), i.e. the oldest non-system turn. -/
def addTurn (h : List Turn) (t : Turn) : List Turn :=
  let h1 := h ++ [t]
  if maxConversationHistory + 1 < h1.length then h1.eraseIdx 1 else h1

/-- `addToConversationHistory(ws, role, content)`. -/
def addToConversationHistory (c : Conn) (role content : String) : Conn :=
  { c with
    conversationHistory :=
      some (addTurn (initHistory c.conversationHistory) ⟨role, content⟩) }

/-- `clearConversationHistory(ws)`: keep `ws.conversationHistory?.[0]` if
it is a (truthy) entry, otherwise set the history to null, then notify the
client. -/
def clearConversationHistory (c : Conn) : Conn :=
  let c1 :=
    { c with
      conversationHistory :=
        (c.conversationHistory.bind List.head?).map (fun t => [t]) }
  sendToClient c1 Msg.conversationCleared

/-! ### Teardown (`cleanupResources`, `wsHandler.js`) and operation traces -/

/-- `cleanupResources`: synchronously mark the connection inactive, tear
down the recognizer resources (the push stream disappears), and cancel
ongoing TTS/LLM activity without client notification. -/
def cleanupResources (c : Conn) : Conn :=
  cancelOngoingActivities { c with connectionActive := false, pushStream := false } false

/-- The modelled per-connection operations that can run after teardown:
each one corresponds to an async callback or handler that may still fire
on the session. -/
inductive Op where
  | audioFrame (data : List Nat)
  | cancel (sendInterrupt : Bool)
  | tts (events : List (SynthRes × Bool))
  | clearHistory
  | addHistory (role content : String)
  | send (m : Msg)
deriving Repr

/-- Apply one operation to the connection state. -/
def applyOp (c : Conn) : Op → Conn
  | .audioFrame d => (processAudioData c d).1
  | .cancel b => cancelOngoingActivities c b
  | .tts evs => processNextTTS c evs
  | .clearHistory => clearConversationHistory c
  | .addHistory r t => addToConversationHistory c r t
  | .send m => sendToClient c m

/-- Apply a sequence of operations. -/
def runOps (c : Conn) (ops : List Op) : Conn :=
  ops.foldl applyOp c

/-! ### Spec-side voice-activity definition -/

/-- Modelled from the spec wording: the `j`-th 16-bit little-endian sample
of the frame. -/
def specSample (buf : List Nat) (j : Nat) : Int :=
  int16OfBytes (buf.getD (2 * j) 0) (buf.getD (2 * j + 1) 0)

/-- Modelled from the spec wording: the mean absolute amplitude over the
bounded leading sample window (the first `min(length, 200) / 2 ≤ 100`
samples), as an exact rational. -/
def leadingMeanAbsAmplitude (buf : List Nat) : ℚ :=
  let n := min buf.length 200 / 2
  (((List.range n).map (fun j => (specSample buf j).natAbs)).sum : ℚ) / (n : ℚ)

/-! ## Theorems -/

/-- The last `n` elements of a list (what FIFO eviction from the front
keeps). -/
def keepLast (n : Nat) (xs : List Turn) : List Turn :=
  xs.drop (xs.length - n)

theorem keepLast_of_le (n : Nat) (xs : List Turn) (h : xs.length ≤ n) :
    keepLast n xs = xs := by
  unfold keepLast
  rw [Nat.sub_eq_zero_of_le h, List.drop_zero]

theorem keepLast_length_le (n : Nat) (xs : List Turn) :
    (keepLast n xs).length ≤ n := by
  unfold keepLast
  rw [List.length_drop]
  omega

theorem keepLast_append_keepLast (n : Nat) (a b : List Turn) :
    keepLast n (keepLast n a ++ b) = keepLast n (a ++ b) := by
  unfold keepLast
  rw [← List.drop_append_of_le_length (by omega : a.length - n ≤ a.length),
      List.drop_drop]
  congr 1
  simp only [List.length_drop, List.length_append]
  omega

/-- One `addToConversationHistory` step on a history headed by the system
turn: the head is preserved and the rest is the FIFO window of the last
`maxConversationHistory` turns. -/
theorem addTurn_cons (s : Turn) (rest : List Turn) (t : Turn)
    (h : rest.length ≤ maxConversationHistory) :
    addTurn (s :: rest) t = s :: keepLast maxConversationHistory (rest ++ [t]) := by
  have h10 : rest.length ≤ 10 := h
  unfold addTurn
  dsimp only [List.cons_append]
  by_cases hlen : rest.length = 10
  · rw [if_pos (by simp [maxConversationHistory, hlen])]
    rw [List.eraseIdx_cons_succ, List.eraseIdx_zero]
    unfold keepLast
    rw [List.length_append]
    simp only [hlen, maxConversationHistory, List.length_singleton]
    norm_num
  · have hc : ¬(maxConversationHistory + 1 < (s :: (rest ++ [t])).length) := by
      show ¬(10 + 1 < (s :: (rest ++ [t])).length)
      simp only [List.length_cons, List.length_append, List.length_nil]
      omega
    have hle : (rest ++ [t]).length ≤ maxConversationHistory := by
      show (rest ++ [t]).length ≤ 10
      simp only [List.length_append, List.length_cons, List.length_nil]
      omega
    rw [if_neg hc, keepLast_of_le _ _ hle]

/-- Folding appends over a system-headed history keeps the head and the
FIFO window of the accumulated turns. -/
theorem foldl_addTurn (ts : List Turn) (s : Turn) (rest : List Turn)
    (h : rest.length ≤ maxConversationHistory) :
    ts.foldl addTurn (s :: rest)
      = s :: keepLast maxConversationHistory (rest ++ ts) := by
  induction ts generalizing rest with
  | nil => simp [keepLast_of_le _ _ h]
  | cons t ts ih =>
    rw [List.foldl_cons, addTurn_cons s rest t h,
        ih _ (keepLast_length_le _ _), keepLast_append_keepLast]
    simp

/-- Appending a sequence of turns to the connection's conversation
history. -/
def runAppends (c : Conn) (ts : List Turn) : Conn :=
  ts.foldl (fun s t => addToConversationHistory s t.role t.content) c

theorem runAppends_some (ts : List Turn) (c : Conn) (l : List Turn)
    (hc : c.conversationHistory = some l) :
    (runAppends c ts).conversationHistory = some (ts.foldl addTurn l) := by
  induction ts generalizing c l with
  | nil => simpa [runAppends] using hc
  | cons t ts ih =>
    have hstep : (addToConversationHistory c t.role t.content).conversationHistory
        = some (addTurn l t) := by
      simp [addToConversationHistory, initHistory, hc]
    exact ih _ _ hstep

/-- C3: whatever sequence of turns is appended, the conversation history
stays headed by the fixed system turn at index 0; its length is
`1 + min (number of appended turns) maxConversationHistory`, hence never
exceeds `maxConversationHistory + 1` and stabilizes there once enough
turns have been appended; eviction is FIFO — the retained non-system turns
are exactly the last `maxConversationHistory` appended ones.  The last
conjunct lifts this to the connection state: appending any non-empty turn
sequence to a fresh connection yields exactly this history. -/
theorem conversationHistory_bounded (ts : List Turn) :
    ts.foldl addTurn [systemPromptTurn]
      = systemPromptTurn :: keepLast maxConversationHistory ts
    ∧ (ts.foldl addTurn [systemPromptTurn]).length
        = 1 + min ts.length maxConversationHistory
    ∧ (ts.foldl addTurn [systemPromptTurn]).head? = some systemPromptTurn
    ∧ (∀ t more, (runAppends initConn (t :: more)).conversationHistory
        = some ((t :: more).foldl addTurn [systemPromptTurn])) := by
  have key := foldl_addTurn ts systemPromptTurn [] (by simp [maxConversationHistory])
  simp only [List.nil_append] at key
  refine ⟨key, ?_, ?_, ?_⟩
  · rw [key]
    simp only [List.length_cons, keepLast, List.length_drop]
    omega
  · rw [key]
    rfl
  · intro t more
    exact runAppends_some more _ _
      (by simp [addToConversationHistory, initHistory, initConn])

/-- C9: `detectVoiceActivity` is total and never throws.  A null buffer or
a buffer shorter than 2 bytes yields `false`, and when reading the samples
fails (the modelled thrown `RangeError`, `sumAbsSamples = none`) the error
is caught and the function defaults to `false`.  Totality itself holds by
construction, since `detectVoiceActivity` is a total Lean function. -/
theorem detectVoiceActivity_total_safe :
    detectVoiceActivity none = false
    ∧ (∀ buf : List Nat, buf.length < 2 → detectVoiceActivity (some buf) = false)
    ∧ (∀ buf : List Nat, 2 ≤ buf.length →
        sumAbsSamples buf (vadIndices (min buf.length 200)) = none →
        detectVoiceActivity (some buf) = false) := by
  refine ⟨rfl, fun buf h => by simp [detectVoiceActivity, h], fun buf h hn => ?_⟩
  simp only [detectVoiceActivity, if_neg (by omega : ¬buf.length < 2), hn]

/-- Witness for C9 at concrete inputs: a one-byte buffer and a three-byte
buffer whose final sample read goes out of bounds. -/
theorem detectVoiceActivity_total_safe_witness :
    ([7] : List Nat).length < 2
    ∧ detectVoiceActivity (some [7]) = false
    ∧ sumAbsSamples [1, 2, 3] (vadIndices (min ([1, 2, 3] : List Nat).length 200)) = none
    ∧ detectVoiceActivity (some [1, 2, 3]) = false :=
  ⟨by decide, detectVoiceActivity_total_safe.2.1 [7] (by decide), by decide,
   detectVoiceActivity_total_safe.2.2 [1, 2, 3] (by decide) (by decide)⟩

/-- C10: `clearConversationHistory` on an active connection keeps exactly
the leading (system) turn when a non-empty history exists, discards all
other turns, and sends a `conversationCleared` message; when no history
exists it leaves the history null (and still notifies). -/
theorem clearConversationHistory_keeps_system (c : Conn)
    (hact : c.connectionActive = true) :
    (∀ t rest, c.conversationHistory = some (t :: rest) →
      (clearConversationHistory c).conversationHistory = some [t]
      ∧ (clearConversationHistory c).sent = c.sent ++ [Msg.conversationCleared])
    ∧ (c.conversationHistory = none →
      (clearConversationHistory c).conversationHistory = none
      ∧ (clearConversationHistory c).sent = c.sent ++ [Msg.conversationCleared]) := by
  constructor
  · intro t rest h
    simp [clearConversationHistory, sendToClient, hact, h]
  · intro h
    simp [clearConversationHistory, sendToClient, hact, h]

/-- A connection with a two-turn history, used to instantiate C10. -/
def histConn : Conn :=
  { initConn with conversationHistory := some [systemPromptTurn, ⟨"user", "hi"⟩] }

/-- Witness for C10 at a concrete connection holding a system turn and one
user turn. -/
theorem clearConversationHistory_keeps_system_witness :
    (clearConversationHistory histConn).conversationHistory = some [systemPromptTurn]
    ∧ (clearConversationHistory histConn).sent
        = histConn.sent ++ [Msg.conversationCleared] :=
  (clearConversationHistory_keeps_system histConn rfl).1
    systemPromptTurn [⟨"user", "hi"⟩] rfl

/-- C4, counterexample: calling `cancelOngoingActivities` twice (with its
default `sendInterrupt = true`) on an already-idle *active* session sends
the client an interrupt notification both times — the notification is not
deduplicated, contradicting the claim that no duplicate interrupt
notifications are produced. -/
theorem cancelOngoingActivities_double_notification :
    (cancelOngoingActivities (cancelOngoingActivities initConn true) true).sent
      = [Msg.interrupt, Msg.interrupt] := by decide

/-- C4, amended: on an already-idle session (no LLM stream, no live
synthesizer, empty queue, processing flag clear) `cancelOngoingActivities`
is idempotent on the session state and no-ops cleanly — each call changes
nothing but the invocation count and, exactly when notification is
requested and the connection is active, appends one interrupt message; so
two calls with notification disabled (or on an inactive session) send
nothing, while two calls with notification enabled on an active session
send two interrupts. -/
theorem cancelOngoingActivities_idle_idempotent (c : Conn) (b : Bool)
    (h1 : c.llmStream = none) (h2 : c.currentSynthesizer = none)
    (h3 : c.ttsPendingSentences = []) (h4 : c.processingTTS = false) :
    cancelOngoingActivities c b =
      { c with cancelCalls := c.cancelCalls + 1,
               sent := c.sent ++
                 (if b && c.connectionActive then [Msg.interrupt] else []) }
    ∧ cancelOngoingActivities (cancelOngoingActivities c b) b =
      { c with cancelCalls := c.cancelCalls + 2,
               sent := c.sent ++
                 (if b && c.connectionActive then [Msg.interrupt, Msg.interrupt]
                  else []) } := by
  obtain ⟨ca, us, q, pt, ls, cs, ch, ps, st, fw, wn, cc, sc⟩ := c
  simp only at h1 h2 h3 h4
  subst h1 h2 h3 h4
  cases b <;> cases ca <;>
    simp [cancelOngoingActivities, sendToClient]

/-- Witness for the amended C4 on the freshly initialized (idle, active)
connection with notification enabled. -/
theorem cancelOngoingActivities_idle_idempotent_witness :
    cancelOngoingActivities initConn true =
      { initConn with cancelCalls := initConn.cancelCalls + 1,
                      sent := initConn.sent ++
                        (if true && initConn.connectionActive then [Msg.interrupt]
                         else []) }
    ∧ cancelOngoingActivities (cancelOngoingActivities initConn true) true =
      { initConn with cancelCalls := initConn.cancelCalls + 2,
                      sent := initConn.sent ++
                        (if true && initConn.connectionActive
                         then [Msg.interrupt, Msg.interrupt] else []) } :=
  cancelOngoingActivities_idle_idempotent initConn true rfl rfl rfl rfl

/-- C5, counterexample: an empty frame is rejected (returns `false`,
nothing forwarded, state untouched) but no format warning is logged — the
empty-frame guard returns before the format check that logs the warning,
contradicting the claim that empty frames log a format warning. -/
theorem processAudioData_empty_no_warning :
    (processAudioData { initConn with pushStream := true } []).2 = false
    ∧ (processAudioData { initConn with pushStream := true } []).1.formatWarnings
        = 0
    ∧ (processAudioData { initConn with pushStream := true } []).1.forwarded
        = [] := by
  decide

/-- C5, amended: on an active connection with a live recognition push
stream, a valid PCM frame (even positive byte length) is accepted — the
call returns `true`, the frame is forwarded, and no warning is logged; an
empty frame returns `false` with nothing forwarded and the state untouched
(in particular no warning, it is dropped before format validation); an
odd-length frame returns `false`, forwards nothing, and logs one format
warning. -/
theorem processAudioData_validation (c : Conn) (f : List Nat)
    (hact : c.connectionActive = true) (hps : c.pushStream = true) :
    (2 ≤ f.length ∧ f.length % 2 = 0 →
      (processAudioData c f).2 = true
      ∧ (processAudioData c f).1.forwarded = c.forwarded ++ [f]
      ∧ (processAudioData c f).1.formatWarnings = c.formatWarnings)
    ∧ (f.length = 0 →
      (processAudioData c f).2 = false ∧ (processAudioData c f).1 = c)
    ∧ (f.length % 2 = 1 →
      (processAudioData c f).2 = false
      ∧ (processAudioData c f).1.forwarded = c.forwarded
      ∧ (processAudioData c f).1.formatWarnings = c.formatWarnings + 1) := by
  refine ⟨?_, ?_, ?_⟩
  · rintro ⟨h2, he⟩
    have hc1 : (bargeIn c f).pushStream = true := (bargeIn_stable c f).1.trans hps
    simp only [processAudioData]
    rw [if_neg (by simp only [hact, Bool.not_true, Bool.or_false,
      decide_eq_true_eq]; omega)]
    rw [if_pos (by simp only [Bool.and_eq_true, decide_eq_true_eq]; exact ⟨h2, he⟩)]
    rw [if_pos hc1]
    refine ⟨rfl, ?_, ?_⟩
    · simp [(bargeIn_stable c f).2.1]
    · simp [(bargeIn_stable c f).2.2.1]
  · intro h0
    simp [processAudioData, h0]
  · intro ho
    simp only [processAudioData]
    rw [if_neg (by simp only [hact, Bool.not_true, Bool.or_false,
      decide_eq_true_eq]; omega)]
    rw [if_neg (by simp only [Bool.and_eq_true, decide_eq_true_eq]; omega)]
    exact ⟨rfl, rfl, rfl⟩

/-- Witness for the amended C5: a valid 2-byte frame on a ready
connection is accepted and forwarded. -/
theorem processAudioData_validation_witness :
    (2 ≤ ([0, 16] : List Nat).length ∧ ([0, 16] : List Nat).length % 2 = 0)
    ∧ ((processAudioData { initConn with pushStream := true } [0, 16]).2 = true
      ∧ (processAudioData { initConn with pushStream := true } [0, 16]).1.forwarded
          = ({ initConn with pushStream := true } : Conn).forwarded ++ [[0, 16]]
      ∧ (processAudioData { initConn with pushStream := true } [0, 16]).1.formatWarnings
          = ({ initConn with pushStream := true } : Conn).formatWarnings) :=
  ⟨by decide,
   (processAudioData_validation { initConn with pushStream := true } [0, 16]
      rfl rfl).1 (by decide)⟩

/-- Processing one valid voiced frame while the user is not yet marked
speaking: the barge-in fires once — speaking is set, one cancellation is
invoked, one interrupt notification is sent. -/
theorem processAudioData_barge (c : Conn) (f : List Nat)
    (hact : c.connectionActive = true) (hns : c.isUserSpeaking = false)
    (h2 : 2 ≤ f.length) (he : f.length % 2 = 0)
    (hv : detectVoiceActivity (some f) = true) :
    (processAudioData c f).1.sent = c.sent ++ [Msg.interrupt]
    ∧ (processAudioData c f).1.cancelCalls = c.cancelCalls + 1
    ∧ (processAudioData c f).1.isUserSpeaking = true
    ∧ (processAudioData c f).1.connectionActive = true := by
  have hb : bargeIn c f
      = cancelOngoingActivities { c with isUserSpeaking := true } true := by
    simp [bargeIn, hv, hns]
  simp only [processAudioData]
  rw [if_neg (by simp only [hact, Bool.not_true, Bool.or_false,
    decide_eq_true_eq]; omega)]
  rw [if_pos (by simp only [Bool.and_eq_true, decide_eq_true_eq]; exact ⟨h2, he⟩)]
  by_cases hps : (bargeIn c f).pushStream = true
  · rw [if_pos hps, hb]
    simp [cancelOngoingActivities, sendToClient, hact]
  · rw [if_neg hps, hb]
    simp [cancelOngoingActivities, sendToClient, hact]

/-- Processing any frame while the user is already marked speaking never
re-triggers the barge-in: no message, no cancellation, flags unchanged. -/
theorem processAudioData_speaking (c : Conn) (f : List Nat)
    (hact : c.connectionActive = true) (hsp : c.isUserSpeaking = true) :
    (processAudioData c f).1.sent = c.sent
    ∧ (processAudioData c f).1.cancelCalls = c.cancelCalls
    ∧ (processAudioData c f).1.isUserSpeaking = true
    ∧ (processAudioData c f).1.connectionActive = true := by
  have hb : bargeIn c f = c := by simp [bargeIn, hsp]
  simp only [processAudioData, hb]
  split
  · simp [hsp, hact]
  · split
    · split <;> simp [hsp, hact]
    · simp [hsp, hact]

theorem runAudio_speaking (frames : List (List Nat)) (c : Conn)
    (hact : c.connectionActive = true) (hsp : c.isUserSpeaking = true) :
    (runAudio c frames).sent = c.sent
    ∧ (runAudio c frames).cancelCalls = c.cancelCalls
    ∧ (runAudio c frames).isUserSpeaking = true
    ∧ (runAudio c frames).connectionActive = true := by
  induction frames generalizing c with
  | nil => exact ⟨rfl, rfl, hsp, hact⟩
  | cons f fs ih =>
    obtain ⟨s1, s2, s3, s4⟩ := processAudioData_speaking c f hact hsp
    obtain ⟨r1, r2, r3, r4⟩ := ih (processAudioData c f).1 s4 s3
    exact ⟨r1.trans s1, r2.trans s2, r3, r4⟩

/-- C1: a non-empty run of valid, above-threshold frames arriving on an
active connection that is not yet marked speaking triggers exactly one
barge-in: the whole run sends exactly one interrupt notification, invokes
`cancelOngoingActivities` exactly once (on the first frame, which also
sets `speaking = true`), and the remaining frames do not re-trigger it. -/
theorem bargeIn_exactly_once (c : Conn) (f : List Nat) (fs : List (List Nat))
    (hact : c.connectionActive = true) (hns : c.isUserSpeaking = false)
    (hvalid : ∀ g ∈ f :: fs,
      2 ≤ g.length ∧ g.length % 2 = 0 ∧ detectVoiceActivity (some g) = true) :
    (runAudio c (f :: fs)).sent = c.sent ++ [Msg.interrupt]
    ∧ (runAudio c (f :: fs)).cancelCalls = c.cancelCalls + 1
    ∧ (runAudio c (f :: fs)).isUserSpeaking = true := by
  obtain ⟨h2, he, hv⟩ := hvalid f (List.mem_cons_self f fs)
  obtain ⟨s1, s2, s3, s4⟩ := processAudioData_barge c f hact hns h2 he hv
  have hfold : runAudio c (f :: fs) = runAudio (processAudioData c f).1 fs := rfl
  obtain ⟨r1, r2, r3, r4⟩ := runAudio_speaking fs (processAudioData c f).1 s4 s3
  rw [hfold]
  exact ⟨r1.trans s1, r2.trans s2, r3⟩

/-- A 320-byte PCM frame whose 160 samples all have value 4096, i.e. mean
absolute amplitude 4096, far above the threshold of 300. -/
def loudFrame : List Nat := (List.replicate 160 ([0, 16] : List Nat)).flatten

set_option maxRecDepth 8000 in
/-- Witness for C1, Scenario A: ten valid 320-byte above-threshold frames
on a fresh connection produce exactly one interrupt notification and one
cancellation. -/
theorem bargeIn_exactly_once_witness :
    (runAudio initConn (loudFrame :: List.replicate 9 loudFrame)).sent
      = initConn.sent ++ [Msg.interrupt]
    ∧ (runAudio initConn (loudFrame :: List.replicate 9 loudFrame)).cancelCalls
      = initConn.cancelCalls + 1
    ∧ (runAudio initConn (loudFrame :: List.replicate 9 loudFrame)).isUserSpeaking
      = true :=
  bargeIn_exactly_once initConn loudFrame (List.replicate 9 loudFrame)
    rfl rfl (by decide)

/-- A connection with two pending sentences and a live LLM stream, used to
exercise the synthesis queue. -/
def ttsDemoConn : Conn :=
  { initConn with ttsPendingSentences := ["Hello.", "World."], llmStream := some 0 }

/-- C2, counterexample: two sentences are enqueued, no interruption ever
occurs (`cancelOngoingActivities` is never invoked), every synthesis
attempt succeeds — yet only one synthesis call is made, because the LLM
stream completes (its `finally` clears `ws.llmStream`) while the first
sentence is being synthesized, and the re-entry check `!ws.llmStream` then
stops the queue, stranding the second sentence unprocessed. -/
theorem processNextTTS_stalls_on_stream_end :
    ttsDemoConn.ttsPendingSentences.length = 2
    ∧ (processNextTTS ttsDemoConn
        [(SynthRes.ok 3, true), (SynthRes.ok 4, false)]).synthCalls.length = 1
    ∧ (processNextTTS ttsDemoConn
        [(SynthRes.ok 3, true), (SynthRes.ok 4, false)]).ttsPendingSentences
        = ["World."]
    ∧ (processNextTTS ttsDemoConn
        [(SynthRes.ok 3, true), (SynthRes.ok 4, false)]).processingTTS = false := by
  decide

/-- C2, amended: for any `N` enqueued sentences, if the connection stays
active, every synthesis call succeeds, and the LLM stream handle remains
set for the whole drain (no stream completion interleaves), then exactly
`N` synthesis calls are made, in enqueue (FIFO) order — the call trace is
exactly the queue contents — the queue empties and the processing flag
clears.  (The sequential drain makes at most one sentence in flight at a
time by construction.)  Should the stream handle be cleared mid-drain, the
queue instead stops early, as the counterexample shows. -/
theorem processNextTTS_drains (sents : List String) :
    ∀ (sizes : List Nat) (c : Conn) (n : Nat),
    c.ttsPendingSentences = sents →
    sizes.length = sents.length →
    c.llmStream = some n →
    c.connectionActive = true →
    (processNextTTS c (sizes.map (fun k => (SynthRes.ok k, false)))).synthCalls
        = c.synthCalls ++ sents
    ∧ (processNextTTS c (sizes.map (fun k => (SynthRes.ok k, false)))).ttsPendingSentences
        = []
    ∧ (processNextTTS c (sizes.map (fun k => (SynthRes.ok k, false)))).processingTTS
        = false := by
  induction sents with
  | nil =>
    intro sizes c n hq hlen hstream hact
    have hz : sizes = [] := List.eq_nil_of_length_eq_zero hlen
    subst hz
    simp [processNextTTS, ttsExit, hq]
  | cons s ss ih =>
    intro sizes c n hq hlen hstream hact
    cases sizes with
    | nil => simp at hlen
    | cons k ks =>
      simp only [List.map_cons]
      cases ss with
      | nil =>
        have hk : ks = [] := List.eq_nil_of_length_eq_zero (by simpa using hlen)
        subst hk
        by_cases hs : s.isEmpty = true
        · simp [processNextTTS, ttsExit, textToSpeech, sendToClient, hq, hs, hstream, hact]
        · simp [processNextTTS, ttsExit, textToSpeech, sendToClient, hq, hs, hstream, hact]
      | cons s2 ss2 =>
        by_cases hs : s.isEmpty = true
        · have hstep : processNextTTS c
              ((SynthRes.ok k, false) :: ks.map (fun j => (SynthRes.ok j, false)))
              = processNextTTS
                  { c with processingTTS := true,
                           synthCalls := c.synthCalls ++ [s],
                           ttsPendingSentences := s2 :: ss2 }
                  (ks.map (fun j => (SynthRes.ok j, false))) := by
            simp [processNextTTS, ttsExit, textToSpeech, sendToClient, hq, hs, hstream, hact]
          rw [hstep]
          obtain ⟨h1, h2, h3⟩ := ih ks
            { c with processingTTS := true,
                     synthCalls := c.synthCalls ++ [s],
                     ttsPendingSentences := s2 :: ss2 }
            n rfl (by simpa using hlen) (by simp [hstream]) (by simp [hact])
          refine ⟨?_, h2, h3⟩
          rw [h1]
          simp
        · have hstep : processNextTTS c
              ((SynthRes.ok k, false) :: ks.map (fun j => (SynthRes.ok j, false)))
              = processNextTTS
                  { c with processingTTS := true,
                           synthCalls := c.synthCalls ++ [s],
                           currentSynthesizer := none,
                           sent := c.sent ++ [Msg.audioData k],
                           ttsPendingSentences := s2 :: ss2 }
                  (ks.map (fun j => (SynthRes.ok j, false))) := by
            simp [processNextTTS, ttsExit, textToSpeech, sendToClient, hq, hs, hstream, hact]
          rw [hstep]
          obtain ⟨h1, h2, h3⟩ := ih ks
            { c with processingTTS := true,
                     synthCalls := c.synthCalls ++ [s],
                     currentSynthesizer := none,
                     sent := c.sent ++ [Msg.audioData k],
                     ttsPendingSentences := s2 :: ss2 }
            n rfl (by simpa using hlen) (by simp [hstream]) (by simp [hact])
          refine ⟨?_, h2, h3⟩
          rw [h1]
          simp

/-- Witness for the amended C2: a two-sentence queue drains with exactly
two synthesis calls, in order. -/
theorem processNextTTS_drains_witness :
    (processNextTTS ttsDemoConn
        ([3, 4].map (fun k => (SynthRes.ok k, false)))).synthCalls
      = ttsDemoConn.synthCalls ++ ["Hello.", "World."]
    ∧ (processNextTTS ttsDemoConn
        ([3, 4].map (fun k => (SynthRes.ok k, false)))).ttsPendingSentences = []
    ∧ (processNextTTS ttsDemoConn
        ([3, 4].map (fun k => (SynthRes.ok k, false)))).processingTTS = false :=
  processNextTTS_drains ["Hello.", "World."] [3, 4] ttsDemoConn 0 rfl rfl rfl rfl

/-- One queue iteration with more sentences pending: whatever the outcome
of the synthesis interaction, `textToSpeech` resolves — its per-outcome
messages are sent, the head sentence is consumed, and the queue continues
with the next sentence. -/
theorem processNextTTS_step (c : Conn) (s s2 : String) (ss2 : List String)
    (r : SynthRes) (n : Nat) (evs : List (SynthRes × Bool))
    (hq : c.ttsPendingSentences = s :: s2 :: ss2)
    (hs : s.isEmpty = false)
    (hstream : c.llmStream = some n)
    (hact : c.connectionActive = true) :
    processNextTTS c ((r, false) :: evs)
      = processNextTTS
          { c with processingTTS := true,
                   synthCalls := c.synthCalls ++ [s],
                   currentSynthesizer := none,
                   sent := c.sent ++ synthMsgs r,
                   ttsPendingSentences := s2 :: ss2 } evs := by
  cases r <;>
    simp [processNextTTS, ttsExit, textToSpeech, sendErrorToClient, sendToClient,
      synthMsgs, hq, hs, hstream, hact]

/-- C7, counterexample: two sentences are queued and synthesis of the head
sentence fails (the awaited fetch throws, caught inside `textToSpeech`) —
yet the pending queue is not cleared: the failed sentence is merely
skipped and the second sentence is still synthesized, so two synthesis
calls are made; and the client receives the untyped `rawError` object,
not a typed `error` message.  This contradicts the claim that a synthesis
failure clears the entire queue and sends one typed error. -/
theorem processNextTTS_failure_not_cleared :
    (processNextTTS ttsDemoConn
        [(SynthRes.netThrow "boom", false), (SynthRes.ok 4, false)]).synthCalls
      = ["Hello.", "World."]
    ∧ (processNextTTS ttsDemoConn
        [(SynthRes.netThrow "boom", false), (SynthRes.ok 4, false)]).ttsPendingSentences
      = []
    ∧ (processNextTTS ttsDemoConn
        [(SynthRes.netThrow "boom", false), (SynthRes.ok 4, false)]).sent
      = [Msg.rawError "Speech synthesis error" "boom", Msg.audioData 4] := by
  decide

/-- C7, amended: a synthesis failure never reaches the queue's catch
handler, because `textToSpeech` handles HTTP failures, empty audio bodies
and thrown fetch errors internally — it sends the client one untyped
`{ error, details }` object (with a details field) and resolves — so
`processNextTTS` treats the failed sentence as processed and moves on.
For a queue of `N` non-empty sentences with the connection active and the
LLM stream handle live throughout, all `N` sentences are attempted in
enqueue order whatever mix of outcomes occurs, the queue empties, the
processing flag clears, and the client receives exactly the per-outcome
messages: audio for successes, an untyped `rawError` for each failure,
and no typed `error` message ever.  The source's catch branch (clear the
queue, typed error) is unreachable from a synthesis failure; the
connection is not wedged either way. -/
theorem processNextTTS_failure_skips (sents : List String) :
    ∀ (outs : List SynthRes) (c : Conn) (n : Nat),
    c.ttsPendingSentences = sents →
    outs.length = sents.length →
    (∀ s ∈ sents, s.isEmpty = false) →
    c.llmStream = some n →
    c.connectionActive = true →
    (processNextTTS c (outs.map (fun r => (r, false)))).synthCalls
        = c.synthCalls ++ sents
    ∧ (processNextTTS c (outs.map (fun r => (r, false)))).ttsPendingSentences = []
    ∧ (processNextTTS c (outs.map (fun r => (r, false)))).processingTTS = false
    ∧ (processNextTTS c (outs.map (fun r => (r, false)))).sent
        = c.sent ++ (outs.map synthMsgs).flatten := by
  induction sents with
  | nil =>
    intro outs c n hq hlen hne hstream hact
    have hz : outs = [] := List.eq_nil_of_length_eq_zero hlen
    subst hz
    simp [processNextTTS, ttsExit, hq]
  | cons s ss ih =>
    intro outs c n hq hlen hne hstream hact
    cases outs with
    | nil => simp at hlen
    | cons r rs =>
      have hs : s.isEmpty = false := hne s (List.mem_cons_self s ss)
      have hne2 : ∀ t ∈ ss, t.isEmpty = false :=
        fun t ht => hne t (List.mem_cons_of_mem s ht)
      simp only [List.map_cons]
      cases ss with
      | nil =>
        have hk : rs = [] := List.eq_nil_of_length_eq_zero (by simpa using hlen)
        subst hk
        cases r <;>
          simp [processNextTTS, ttsExit, textToSpeech, sendErrorToClient,
            sendToClient, synthMsgs, hq, hs, hstream, hact]
      | cons s2 ss2 =>
        rw [processNextTTS_step c s s2 ss2 r n _ hq hs hstream hact]
        obtain ⟨h1, h2, h3, h4⟩ := ih rs
          { c with processingTTS := true,
                   synthCalls := c.synthCalls ++ [s],
                   currentSynthesizer := none,
                   sent := c.sent ++ synthMsgs r,
                   ttsPendingSentences := s2 :: ss2 }
          n rfl (by simpa using hlen) hne2 (by simp [hstream]) (by simp [hact])
        refine ⟨?_, h2, h3, ?_⟩
        · rw [h1]
          simp
        · rw [h4]
          simp

/-- Witness for the amended C7: the head synthesis throws, the second
succeeds — both sentences are attempted, the queue drains, and the client
sees the untyped error followed by the audio. -/
theorem processNextTTS_failure_skips_witness :
    (processNextTTS ttsDemoConn
        ([SynthRes.netThrow "boom", SynthRes.ok 4].map (fun r => (r, false)))).synthCalls
      = ttsDemoConn.synthCalls ++ ["Hello.", "World."]
    ∧ (processNextTTS ttsDemoConn
        ([SynthRes.netThrow "boom", SynthRes.ok 4].map (fun r => (r, false)))).ttsPendingSentences
      = []
    ∧ (processNextTTS ttsDemoConn
        ([SynthRes.netThrow "boom", SynthRes.ok 4].map (fun r => (r, false)))).processingTTS
      = false
    ∧ (processNextTTS ttsDemoConn
        ([SynthRes.netThrow "boom", SynthRes.ok 4].map (fun r => (r, false)))).sent
      = ttsDemoConn.sent
          ++ ([SynthRes.netThrow "boom", SynthRes.ok 4].map synthMsgs).flatten :=
  processNextTTS_failure_skips ["Hello.", "World."]
    [SynthRes.netThrow "boom", SynthRes.ok 4] ttsDemoConn 0 rfl rfl (by decide) rfl rfl

/-- On an inactive connection, every modelled operation leaves the flag
inactive and performs no client-visible write. -/
theorem applyOp_inactive (c : Conn) (op : Op) (h : c.connectionActive = false) :
    (applyOp c op).connectionActive = false ∧ (applyOp c op).sent = c.sent := by
  cases op with
  | audioFrame d =>
    simp [applyOp, processAudioData, h]
  | cancel b =>
    simp [applyOp, cancelOngoingActivities, sendToClient, h]
  | tts evs =>
    cases evs with
    | nil => simp [applyOp, processNextTTS, ttsExit, h]
    | cons e rest => simp [applyOp, processNextTTS, ttsExit, h]
  | clearHistory =>
    simp [applyOp, clearConversationHistory, sendToClient, h]
  | addHistory r t =>
    simp [applyOp, addToConversationHistory, h]
  | send m =>
    simp [applyOp, sendToClient, h]

/-- Once inactive, a connection stays inactive and its outbox is frozen
under any sequence of modelled operations. -/
theorem runOps_inactive (ops : List Op) (c : Conn)
    (h : c.connectionActive = false) :
    (runOps c ops).connectionActive = false ∧ (runOps c ops).sent = c.sent := by
  induction ops generalizing c with
  | nil => exact ⟨h, rfl⟩
  | cons op ops ih =>
    obtain ⟨h1, h2⟩ := applyOp_inactive c op h
    obtain ⟨h3, h4⟩ := ih (applyOp c op) h1
    exact ⟨h3, h4.trans h2⟩

/-- C6: `cleanupResources` synchronously marks the connection inactive
(and itself sends nothing), and from then on no modelled operation — audio
frames, cancellations, TTS queue processing, history updates, or direct
send attempts — produces any further client-visible write: the outbox
after teardown equals the outbox before it, under every operation
sequence. -/
theorem cleanupResources_no_further_writes (c : Conn) (ops : List Op) :
    (cleanupResources c).connectionActive = false
    ∧ (runOps (cleanupResources c) ops).connectionActive = false
    ∧ (runOps (cleanupResources c) ops).sent = c.sent := by
  have hc : (cleanupResources c).connectionActive = false := by
    simp [cleanupResources, cancelOngoingActivities]
  have hs : (cleanupResources c).sent = c.sent := by
    simp [cleanupResources, cancelOngoingActivities]
  obtain ⟨h1, h2⟩ := runOps_inactive ops (cleanupResources c) hc
  exact ⟨hc, h1, h2.trans hs⟩


theorem getD_eq_get (buf : List Nat) (i : Nat) (h : i < buf.length) :
    buf.getD i 0 = buf.get ⟨i, h⟩ := by
  rw [List.getD_eq_getElem?_getD, List.getElem?_eq_getElem h]
  simp [List.get_eq_getElem]

theorem readInt16LE_eq_some (buf : List Nat) (i : Nat) (h : i + 1 < buf.length) :
    readInt16LE buf i = some (int16OfBytes (buf.getD i 0) (buf.getD (i + 1) 0)) := by
  unfold readInt16LE
  rw [List.get?_eq_get (by omega : i < buf.length), List.get?_eq_get h]
  rw [getD_eq_get buf i (by omega), getD_eq_get buf (i + 1) h]

/-- When every visited read is in bounds, the sampling loop computes the
plain sum of absolute sample values. -/
theorem sumAbsSamples_eq_some (buf : List Nat) (is : List Nat)
    (h : ∀ i ∈ is, i + 1 < buf.length) :
    sumAbsSamples buf is
      = some ((is.map
          (fun i => (int16OfBytes (buf.getD i 0) (buf.getD (i + 1) 0)).natAbs)).sum) := by
  induction is with
  | nil => rfl
  | cons i is ih =>
    have hi := h i (List.mem_cons_self i is)
    have hrest : ∀ j ∈ is, j + 1 < buf.length := fun j hj => h j (List.mem_cons_of_mem i hj)
    simp only [sumAbsSamples, readInt16LE_eq_some buf i hi, ih hrest,
      List.map_cons, List.sum_cons]
    rfl

/-- C8: on every valid frame (even positive byte length), voice-activity
detection reports activity exactly when the mean absolute amplitude of the
16-bit little-endian samples in the bounded leading window — the first
`min(length, 200) / 2 ≤ 100` samples — strictly exceeds the configured
`voiceDetectionThreshold`. -/
theorem detectVoiceActivity_mean_threshold (buf : List Nat)
    (h2 : 2 ≤ buf.length) (he : buf.length % 2 = 0) :
    detectVoiceActivity (some buf) = true
      ↔ (voiceDetectionThreshold : ℚ) < leadingMeanAbsAmplitude buf := by
  have hm1 : 1 ≤ min buf.length 200 / 2 := by omega
  have hbound : ∀ i ∈ vadIndices (min buf.length 200), i + 1 < buf.length := by
    intro i hi
    unfold vadIndices at hi
    simp only [List.mem_map, List.mem_range] at hi
    obtain ⟨j, hj, rfl⟩ := hi
    omega
  have hsum := sumAbsSamples_eq_some buf (vadIndices (min buf.length 200)) hbound
  have hmap : ((vadIndices (min buf.length 200)).map
      (fun i => (int16OfBytes (buf.getD i 0) (buf.getD (i + 1) 0)).natAbs)).sum
      = ((List.range (min buf.length 200 / 2)).map
          (fun j => (specSample buf j).natAbs)).sum := by
    unfold vadIndices specSample
    rw [List.map_map, (by omega : (min buf.length 200 + 1) / 2 = min buf.length 200 / 2)]
    rfl
  rw [hmap] at hsum
  simp only [detectVoiceActivity]
  rw [if_neg (by omega : ¬ buf.length < 2), hsum]
  simp only [decide_eq_true_eq]
  unfold leadingMeanAbsAmplitude
  rw [lt_div_iff₀ (by exact_mod_cast hm1 : (0 : ℚ) < (min buf.length 200 / 2 : Nat))]
  rw [voiceDetectionThreshold]
  constructor <;> intro hlt <;> exact_mod_cast hlt

/-- Witness for C8 on a concrete valid two-sample frame. -/
theorem detectVoiceActivity_mean_threshold_witness :
    2 ≤ ([0, 16, 0, 16] : List Nat).length
    ∧ ([0, 16, 0, 16] : List Nat).length % 2 = 0
    ∧ (detectVoiceActivity (some [0, 16, 0, 16]) = true
        ↔ (voiceDetectionThreshold : ℚ) < leadingMeanAbsAmplitude [0, 16, 0, 16]) :=
  ⟨by decide, by decide,
   detectVoiceActivity_mean_threshold [0, 16, 0, 16] (by decide) (by decide)⟩
